import Mathlib

/-!
Verification development for the natural-language date/time extractor
`parse_natural_language_datetime` of `backend/app/services/datetime_parser.py`.

The embedding works on `List Char` (ASCII reading of the Python `str`
operations: `\d` is `0..9`, `\s` is the ASCII whitespace class, `\w` is
`[a-zA-Z0-9_]`, `str.lower`/`str.strip` act on ASCII).  Each regular
expression of the source is embedded as a hand-written matcher; each matcher
is deterministic because in every pattern of the source the token following
a greedy piece (`\d{1,2}`, `\s*`, `(am|pm)?`, the `to|until|till|-`
alternation) can never consume a character the greedy piece could also have
consumed, so maximal-munch matching coincides with the backtracking
semantics of Python `re.search`.

Datetimes are modelled as a day count (days since the Monday 2024-01-01,
so `weekday() = day mod 7` with Monday = 0, the Python convention) plus
clock fields; `datetime.replace` validates its hour/minute arguments and is
therefore embedded as a fallible operation, which is exactly the step of the
source that can raise `ValueError`.  The external `dateutil` fuzzy parser
and `relativedelta(months=1)` are not part of the source file and enter as
an environment of oracles.
-/

/-- ASCII digit test: the `\d` class of the source regexes. -/
def isDigitC (c : Char) : Bool := 48 ≤ c.toNat && c.toNat ≤ 57

/-- Numeric value of an ASCII digit, as `int()` of a digit character. -/
def dv (c : Char) : Nat := c.toNat - 48

/-- ASCII whitespace: the `\s` class (space, tab, newline, CR, VT, FF). -/
def isSpaceC (c : Char) : Bool :=
  c.toNat = 32 || c.toNat = 9 || c.toNat = 10 || c.toNat = 13 || c.toNat = 11 || c.toNat = 12

/-- ASCII word character: the `\w` class used by the `\b` boundaries. -/
def isWordC (c : Char) : Bool :=
  (97 ≤ c.toNat && c.toNat ≤ 122) || (65 ≤ c.toNat && c.toNat ≤ 90) || isDigitC c || c.toNat = 95

/-- ASCII lower-casing of one character, as `str.lower` acts on ASCII. -/
def asciiLower (c : Char) : Char :=
  if 65 ≤ c.toNat ∧ c.toNat ≤ 90 then Char.ofNat (c.toNat + 32) else c

/-- Match a literal character sequence, returning the rest of the input. -/
def litP : List Char → List Char → Option (List Char)
  | [], t => some t
  | _ :: _, [] => none
  | c :: cs, d :: ds => if c = d then litP cs ds else none

/-- Maximal munch of `\s*`. -/
def dropS (l : List Char) : List Char := List.dropWhile isSpaceC l

/-- Exactly two digits: `(\d{2})`, returning its numeric value. -/
def d2P : List Char → Option (Nat × List Char)
  | a :: b :: t => if isDigitC a && isDigitC b then some (10 * dv a + dv b, t) else none
  | _ => none

/-- One or two digits, greedily: `(\d{1,2})`.  In every source pattern the
token after `(\d{1,2})` cannot start with a digit, so taking two digits
whenever two are available agrees with the backtracking regex. -/
def d12P : List Char → Option (Nat × List Char)
  | [] => none
  | [a] => if isDigitC a then some (dv a, []) else none
  | a :: b :: t =>
    if isDigitC a then
      if isDigitC b then some (10 * dv a + dv b, t) else some (dv a, b :: t)
    else none

/-- A literal colon. -/
def colonP : List Char → Option (List Char)
  | ':' :: t => some t
  | _ => none

/-- Mandatory meridiem `(am|pm)`; `true` means `pm`. -/
def ampmP : List Char → Option (Bool × List Char)
  | 'a' :: 'm' :: t => some (false, t)
  | 'p' :: 'm' :: t => some (true, t)
  | _ => none

/-- Optional meridiem `(am|pm)?`, greedy (always succeeds). -/
def ampmOpt (l : List Char) : Option Bool × List Char :=
  match ampmP l with
  | some (b, t) => (some b, t)
  | none => (none, l)

/-- The range connector `(?:to|until|till|-)`.  The four alternatives are
pairwise distinguishable by their first two characters, so ordered choice
is deterministic. -/
def connP : List Char → Option (List Char)
  | 't' :: 'o' :: t => some t
  | 'u' :: 'n' :: 't' :: 'i' :: 'l' :: t => some t
  | 't' :: 'i' :: 'l' :: 'l' :: t => some t
  | '-' :: t => some t
  | _ => none

/-- Match attempt of time-range pattern 1 at the current position:
`(\d{1,2}):(\d{2})\s*(am|pm)?\s*(?:to|until|till|-)\s*(\d{1,2}):(\d{2})\s*(am|pm)?`.
Captures are normalised to (h1, m1, ap1, h2, m2, ap2). -/
def rp1At (l : List Char) : Option (Nat × Nat × Option Bool × Nat × Nat × Option Bool) := do
  let (h1, r) ← d12P l
  let r ← colonP r
  let (m1, r) ← d2P r
  let (a1, r) := ampmOpt (dropS r)
  let r ← connP (dropS r)
  let (h2, r) ← d12P (dropS r)
  let r ← colonP r
  let (m2, r) ← d2P r
  let (a2, _) := ampmOpt (dropS r)
  some (h1, m1, a1, h2, m2, a2)

/-- Match attempt of time-range pattern 2 at the current position:
`(\d{1,2})\s*(am|pm)\s*(?:to|until|till|-)\s*(\d{1,2})\s*(am|pm)`
(hour-only sides, minutes normalised to 0 as in the 4-group branch). -/
def rp2At (l : List Char) : Option (Nat × Nat × Option Bool × Nat × Nat × Option Bool) := do
  let (h1, r) ← d12P l
  let (a1, r) ← ampmP (dropS r)
  let r ← connP (dropS r)
  let (h2, r) ← d12P (dropS r)
  let (a2, _) ← ampmP (dropS r)
  some (h1, 0, some a1, h2, 0, some a2)

/-- Time-range pattern 3: `from\s*` followed by the body of pattern 1. -/
def rp3At (l : List Char) : Option (Nat × Nat × Option Bool × Nat × Nat × Option Bool) :=
  match litP "from".data l with
  | some r => rp1At (dropS r)
  | none => none

/-- Time-range pattern 4: `from\s*` followed by the body of pattern 2. -/
def rp4At (l : List Char) : Option (Nat × Nat × Option Bool × Nat × Nat × Option Bool) :=
  match litP "from".data l with
  | some r => rp2At (dropS r)
  | none => none

/-- Single-time pattern 1 at the current position: `(\d{1,2}):(\d{2})\s*(am|pm)`. -/
def sp1At (l : List Char) : Option (Nat × Nat × Option Bool) := do
  let (h, r) ← d12P l
  let r ← colonP r
  let (m, r) ← d2P r
  let (a, _) ← ampmP (dropS r)
  some (h, m, some a)

/-- Single-time pattern 2: `(\d{1,2})\s*(am|pm)`. -/
def sp2At (l : List Char) : Option (Nat × Nat × Option Bool) := do
  let (h, r) ← d12P l
  let (a, _) ← ampmP (dropS r)
  some (h, 0, some a)

/-- Single-time pattern 3: `at\s*(\d{1,2}):(\d{2})` (no meridiem group). -/
def sp3At (l : List Char) : Option (Nat × Nat × Option Bool) := do
  let r ← litP "at".data l
  let (h, r) ← d12P (dropS r)
  let r ← colonP r
  let (m, _) ← d2P r
  some (h, m, (none : Option Bool))

/-- Single-time pattern 4: `at\s*(\d{1,2})\s*(am|pm)`. -/
def sp4At (l : List Char) : Option (Nat × Nat × Option Bool) := do
  let r ← litP "at".data l
  let (h, r) ← d12P (dropS r)
  let (a, _) ← ampmP (dropS r)
  some (h, 0, some a)

/-- Single-time pattern 5: bare `(\d{1,2}):(\d{2})`. -/
def sp5At (l : List Char) : Option (Nat × Nat × Option Bool) := do
  let (h, r) ← d12P l
  let r ← colonP r
  let (m, _) ← d2P r
  some (h, m, (none : Option Bool))

/-- Leftmost-match search: `re.search` tries the matcher at every position,
earliest successful position first. -/
def reSearchO {α : Type} (m : List Char → Option α) : List Char → Option α
  | [] => m []
  | c :: t =>
    match m (c :: t) with
    | some a => some a
    | none => reSearchO m t

/-- The time-range loop of the source (lines 84-94): patterns are tried in
list order, each searched over the whole text, first match wins. -/
def searchRanges (text : List Char) : Option (Nat × Nat × Option Bool × Nat × Nat × Option Bool) :=
  match reSearchO rp1At text with
  | some g => some g
  | none =>
  match reSearchO rp2At text with
  | some g => some g
  | none =>
  match reSearchO rp3At text with
  | some g => some g
  | none => reSearchO rp4At text

/-- The single-time loop of the source (lines 156-165). -/
def searchSingles (text : List Char) : Option (Nat × Nat × Option Bool) :=
  match reSearchO sp1At text with
  | some g => some g
  | none =>
  match reSearchO sp2At text with
  | some g => some g
  | none =>
  match reSearchO sp3At text with
  | some g => some g
  | none =>
  match reSearchO sp4At text with
  | some g => some g
  | none => reSearchO sp5At text

/-- Substring test `needle` at the head of `text` (used to embed Python's
`in` operator). -/
def startsWithSub : List Char → List Char → Bool
  | [], _ => true
  | _ :: _, [] => false
  | c :: cs, d :: ds => if c = d then startsWithSub cs ds else false

/-- Python's `needle in text` substring containment. -/
def containsSub (n : List Char) : List Char → Bool
  | [] => startsWithSub n []
  | c :: ts => startsWithSub n (c :: ts) || containsSub n ts

/-- Hyphen-or-space option `[- ]?` of the all-day marker, greedy; the
following literal is `day`, whose `d` is neither `-` nor a space, so
taking the character when present is the regex behaviour. -/
def optDashSpace : List Char → List Char
  | '-' :: t => t
  | ' ' :: t => t
  | l => l

/-- Body of the all-day marker `(all[- ]?day|full[- ]?day)` at the current
position, returning the rest after `day`. -/
def allDayAt (l : List Char) : Option (List Char) :=
  match (match litP "all".data l with | some r => some r | none => litP "full".data l) with
  | none => none
  | some r => litP "day".data (optDashSpace r)

/-- Trailing `\b` after `day`: end of input or a non-word character. -/
def wordEndOk : List Char → Bool
  | [] => true
  | c :: _ => !isWordC c

/-- Whole marker (body plus trailing boundary) at the current position. -/
def allDayFrom (l : List Char) : Bool :=
  match allDayAt l with
  | some r => wordEndOk r
  | none => false

/-- Search for the all-day marker, tracking the previous character for the
leading `\b` (the marker starts with a word character, so the leading
boundary holds exactly when the previous character is absent or non-word). -/
def allDaySearchGo : Option Char → List Char → Bool
  | _, [] => false
  | prev, c :: t =>
    ((match prev with | none => true | some p => !isWordC p) && allDayFrom (c :: t))
      || allDaySearchGo (some c) t

/-- The `re.search(r'\b(all[- ]?day|full[- ]?day)\b', text)` test of line 20. -/
def allDaySearch (l : List Char) : Bool := allDaySearchGo none l

/-- The `\s+w2` tail of the two-word regexes: one whitespace character,
the rest of the maximal `\s+` munch, then the literal `w2` (whose first
character is a letter, never whitespace, so maximal munch is faithful). -/
def spaceThen (w2 : List Char) : List Char → Option Unit
  | [] => none
  | c :: t =>
    if isSpaceC c then
      match litP w2 (dropS t) with
      | some _ => some ()
      | none => none
    else none

/-- Matcher for `w1\s+w2` at the current position (the shape of the
`next\s+<weekday>` and `this\s+weekend` regexes; `re.IGNORECASE` is
moot because the text was lower-cased on entry). -/
def seqWordAt (w1 w2 : List Char) (l : List Char) : Option Unit :=
  match litP w1 l with
  | none => none
  | some r => spaceThen w2 r

/-- The `re.search(r'next\s+<weekday>', text)` test. -/
def nextWdSearch (w : List Char) (text : List Char) : Bool :=
  (reSearchO (seqWordAt "next".data w) text).isSome

/-- The `re.search(r'this\s+weekend', text)` test of line 65. -/
def thisWeekendSearch (text : List Char) : Bool :=
  (reSearchO (seqWordAt "this".data "weekend".data) text).isSome

/-- Naive datetime: `day` counts days since the Monday 2024-01-01 (so the
Python `weekday()` is `day mod 7`, Monday = 0), the remaining fields are
the clock.  Validity (hour below 24 and so on) is enforced where the
source constructs datetimes, namely in `replace`. -/
structure DateTime where
  day : Int
  hour : Nat
  minute : Nat
  second : Nat
  micro : Nat
deriving DecidableEq, Repr

/-- Python `dt + timedelta(days=k)` (also `weeks` as 7 days). -/
def addDays (d : DateTime) (k : Int) : DateTime := { d with day := d.day + k }

/-- Python `dt + timedelta(hours=1)`, with the carry into the next day. -/
def addHours1 (d : DateTime) : DateTime :=
  { d with day := d.day + ((d.hour + 1) / 24 : Nat), hour := (d.hour + 1) % 24 }

/-- Python `dt.weekday()` under the epoch convention of `DateTime`. -/
def pyWeekday (d : DateTime) : Int := d.day % 7

/-- Python `dt.replace(hour=h, minute=m, second=0, microsecond=0)`:
validates the clock fields and raises `ValueError` (the `error` case)
when they are out of range. -/
def DateTime.replaceHM (d : DateTime) (h m : Nat) : Except Unit DateTime :=
  if h ≤ 23 ∧ m ≤ 59 then .ok ⟨d.day, h, m, 0, 0⟩ else .error ()

/-- Strict lexicographic comparison of naive datetimes (Python `<`). -/
def DateTime.ltProp (a b : DateTime) : Prop :=
  a.day < b.day ∨ (a.day = b.day ∧ (a.hour < b.hour ∨ (a.hour = b.hour ∧
    (a.minute < b.minute ∨ (a.minute = b.minute ∧ (a.second < b.second ∨
      (a.second = b.second ∧ a.micro < b.micro)))))))

instance (a b : DateTime) : Decidable (DateTime.ltProp a b) := by
  unfold DateTime.ltProp; infer_instance

/-- Boolean form of `DateTime.ltProp`. -/
def DateTime.ltb (a b : DateTime) : Bool := decide (DateTime.ltProp a b)

/-- Oracles for the two external library calls of the source: `fuzzy`
models `dateutil.parser.parse(text, fuzzy=True)` (`none` when that call
raises) and `addMonth` models `relativedelta(months=1)`. -/
structure Env where
  fuzzy : List Char → Option DateTime
  addMonth : DateTime → DateTime

/-- The `days_ahead` computation of the `next <weekday>` branches
(lines 30-64): `(k - now.weekday()) % 7`, with the zero corrected to 7. -/
def nextWeekdayDate (now : DateTime) (k : Int) : DateTime :=
  let da := (k - pyWeekday now) % 7
  addDays now (if da = 0 then 7 else da)

/-- The day/date detection chain of lines 24-78, in source order. -/
def resolveBaseDate (env : Env) (text : List Char) (now : DateTime) : DateTime :=
  if containsSub "tomorrow".data text then addDays now 1
  else if containsSub "today".data text then now
  else if containsSub "day after tomorrow".data text then addDays now 2
  else if nextWdSearch "monday".data text then nextWeekdayDate now 7
  else if nextWdSearch "tuesday".data text then nextWeekdayDate now 8
  else if nextWdSearch "wednesday".data text then nextWeekdayDate now 9
  else if nextWdSearch "thursday".data text then nextWeekdayDate now 10
  else if nextWdSearch "friday".data text then nextWeekdayDate now 11
  else if nextWdSearch "saturday".data text then nextWeekdayDate now 12
  else if nextWdSearch "sunday".data text then nextWeekdayDate now 13
  else if thisWeekendSearch text then addDays now ((5 - pyWeekday now) % 7)
  else if containsSub "next week".data text then addDays now 7
  else if containsSub "next month".data text then env.addMonth now
  else
    match env.fuzzy text with
    | some d => d
    | none => now

/-- Result structure of the source (line 214-226): `success` is always
true, so only the all-day/timed distinction and the carried fields remain. -/
inductive ParseResult where
  | allDay (start_date : Int)
  | timed (start_datetime : DateTime) (end_datetime : Option DateTime)
deriving DecidableEq, Repr

/-- Meridiem adjustment of the source (pm and hour not 12 adds 12; am and
hour 12 gives 0; no meridiem leaves the hour as matched). -/
def adjHour (h : Nat) : Option Bool → Nat
  | some true => if h ≠ 12 then h + 12 else h
  | some false => if h = 12 then 0 else h
  | none => h

/-- The time-detection phase (lines 80-198): the range phase, then the
single-time phase; returns the updated base, the optional end and the
`time_found` flag.  The `replace` calls can fail. -/
def applyTime (text : List Char) (base : DateTime) :
    Except Unit (DateTime × Option DateTime × Bool) :=
  match searchRanges text with
  | some (h1, m1, a1, h2, m2, a2) =>
    match DateTime.replaceHM base (adjHour h1 a1) m1 with
    | .error u => .error u
    | .ok b =>
      match DateTime.replaceHM b (adjHour h2 a2) m2 with
      | .error u => .error u
      | .ok e0 =>
        .ok (b, some (if DateTime.ltb e0 b then addDays e0 1 else e0), true)
  | none =>
    match searchSingles text with
    | some (h, m, a) =>
      match DateTime.replaceHM base (adjHour h a) m with
      | .error u => .error u
      | .ok b => .ok (b, some (addHours1 b), true)
    | none => .ok (base, none, false)

/-- The day-keyword list of lines 203-204. -/
def dayKeywords : List (List Char) :=
  ["tomorrow".data, "today".data, "monday".data, "tuesday".data, "wednesday".data,
   "thursday".data, "friday".data, "saturday".data, "sunday".data,
   "next week".data, "weekend".data]

/-- The `any(keyword in text.lower() ...)` test of line 206. -/
def hasDayKeyword (text : List Char) : Bool :=
  dayKeywords.any (fun k => containsSub k text)

/-- Body of `parse_natural_language_datetime` after the initial
lower/strip: all-day flag, day resolution, time detection, the
keyword-without-time all-day inference (line 201-211, whose
`replace(hour=0, minute=0, second=0, microsecond=0)` is always in range),
and result assembly. -/
def parseCore (env : Env) (text : List Char) (now : DateTime) : Except Unit ParseResult :=
  let isAllDayFlag := allDaySearch text
  let base := resolveBaseDate env text now
  match applyTime text base with
  | .error u => .error u
  | .ok (b, e?, timeFound) =>
    let kw := !timeFound && !isAllDayFlag && hasDayKeyword (List.map asciiLower text)
    let b2 := if kw then ({ b with hour := 0, minute := 0, second := 0, micro := 0 } : DateTime) else b
    let e2 := if kw then none else e?
    if isAllDayFlag || kw then .ok (.allDay b2.day) else .ok (.timed b2 e2)

/-- Python `str.strip()` on ASCII whitespace. -/
def pyStrip (l : List Char) : List Char :=
  (List.dropWhile isSpaceC (List.dropWhile isSpaceC l).reverse).reverse

/-- The `text.lower().strip()` preprocessing of line 15. -/
def prep (l : List Char) : List Char := pyStrip (List.map asciiLower l)

/-- The extractor `parse_natural_language_datetime` of the source, with the
reference instant and the external-library oracles made explicit. -/
def parse_natural_language_datetime (env : Env) (input : List Char) (now : DateTime) :
    Except Unit ParseResult :=
  parseCore env (prep input) now

/-- Validity of whatever clock values the time phase matched: the matched
(meridiem-adjusted) hour and minute are in range for `replace`. -/
def matchedClockValid (text : List Char) : Bool :=
  match searchRanges text with
  | some (h1, m1, a1, h2, m2, a2) =>
    decide (adjHour h1 a1 ≤ 23 ∧ m1 ≤ 59 ∧ adjHour h2 a2 ≤ 23 ∧ m2 ≤ 59)
  | none =>
    match searchSingles text with
    | some (h, m, a) => decide (adjHour h a ≤ 23 ∧ m ≤ 59)
    | none => true

/-- Normal-return test for the extractor. -/
def exceptOk {ε α : Type} : Except ε α → Bool
  | .ok _ => true
  | .error _ => false

/-- A fixed trivial environment for concrete evaluations whose inputs never
reach the fuzzy fallback or the month branch. -/
def env0 : Env := ⟨fun _ => none, id⟩

/-- The reference instant Monday 2024-01-01T00:00:00 (day 0 of the epoch). -/
def now0 : DateTime := ⟨0, 0, 0, 0, 0⟩

/-- The character list "today from {a1}{a2}pm to {b}:{c}{d}pm": the family of
inputs whose only time expression is a range with an hour-only start side
and a minutes-bearing end side, one instance per choice of the five digit
characters (the instance '1' '2' '1' '3' '0' is "today from 12pm to
1:30pm"). -/
def c10Template (a1 a2 b c d : Char) : List Char :=
  't' :: 'o' :: 'd' :: 'a' :: 'y' :: ' ' :: 'f' :: 'r' :: 'o' :: 'm' :: ' ' ::
  a1 :: a2 :: 'p' :: 'm' :: ' ' :: 't' :: 'o' :: ' ' :: b :: ':' :: c :: d :: 'p' :: 'm' :: []

/-! ## Lemmas about substring containment and searching -/

/-- A list starts with itself followed by anything. -/
theorem startsWithSub_append (n r : List Char) : startsWithSub n (n ++ r) = true := by
  induction n with
  | nil => rfl
  | cons c cs ih => simp [startsWithSub, ih]

/-- Successful head matching decomposes the text. -/
theorem startsWithSub_decomp {n t : List Char} (h : startsWithSub n t = true) :
    ∃ r, t = n ++ r := by
  induction n generalizing t with
  | nil => exact ⟨t, rfl⟩
  | cons c cs ih =>
    cases t with
    | nil => simp [startsWithSub] at h
    | cons d ds =>
      by_cases hcd : c = d
      · subst hcd
        rw [startsWithSub, if_pos rfl] at h
        obtain ⟨r, hr⟩ := ih h
        exact ⟨r, by simp [hr]⟩
      · rw [startsWithSub, if_neg hcd] at h
        exact absurd h (by simp)

/-- Containment holds when the needle sits at the head. -/
theorem containsSub_of_startsWith {n t : List Char} (h : startsWithSub n t = true) :
    containsSub n t = true := by
  cases t with
  | nil => exact h
  | cons c ts => simp [containsSub, h]

/-- Containment holds at any explicit decomposition point. -/
theorem containsSub_append (n p r : List Char) : containsSub n (p ++ (n ++ r)) = true := by
  induction p with
  | nil => exact containsSub_of_startsWith (startsWithSub_append n r)
  | cons c p' ih => simp [containsSub, ih]

/-- Successful containment decomposes the text around the needle. -/
theorem containsSub_decomp {n t : List Char} (h : containsSub n t = true) :
    ∃ p r, t = p ++ (n ++ r) := by
  induction t with
  | nil =>
    obtain ⟨r, hr⟩ := startsWithSub_decomp h
    exact ⟨[], r, by simpa using hr⟩
  | cons c ts ih =>
    rw [containsSub, Bool.or_eq_true] at h
    cases h with
    | inl h =>
      obtain ⟨r, hr⟩ := startsWithSub_decomp h
      exact ⟨[], r, by simpa using hr⟩
    | inr h =>
      obtain ⟨p, r, hr⟩ := ih h
      exact ⟨c :: p, r, by simp [hr]⟩

/-- Containment of an inner needle of a contained needle. -/
theorem containsSub_of_inner {n m t : List Char} (h : containsSub m t = true)
    (q s : List Char) (hm : m = q ++ (n ++ s)) : containsSub n t = true := by
  obtain ⟨p, r, hr⟩ := containsSub_decomp h
  subst hm hr
  have := containsSub_append n (p ++ q) (s ++ r)
  simpa [List.append_assoc] using this

/-- Containment survives the second lower-casing of line 206 when the
needle is its own lower-case image. -/
theorem containsSub_map_lower {n t : List Char} (h : containsSub n t = true)
    (hn : List.map asciiLower n = n) : containsSub n (List.map asciiLower t) = true := by
  obtain ⟨p, r, hr⟩ := containsSub_decomp h
  subst hr
  have := containsSub_append n (List.map asciiLower p) (List.map asciiLower r)
  simpa [List.map_append, hn] using this

/-- A literal matches its own text, leaving the rest. -/
theorem litP_append (w r : List Char) : litP w (w ++ r) = some r := by
  induction w with
  | nil => rfl
  | cons c cs ih => simp [litP, ih]

/-- A search succeeds when the matcher succeeds at the current position. -/
theorem reSearchO_isSome_head {α : Type} (m : List Char → Option α) {t : List Char}
    (h : (m t).isSome = true) : (reSearchO m t).isSome = true := by
  cases t with
  | nil => exact h
  | cons c ts =>
    rw [reSearchO]
    cases hm : m (c :: ts) with
    | some a => simp
    | none => rw [hm] at h; simp at h

/-- A search succeeds on any extension of the text to the left. -/
theorem reSearchO_isSome_append {α : Type} (m : List Char → Option α) (p : List Char)
    {s : List Char} (h : (reSearchO m s).isSome = true) :
    (reSearchO m (p ++ s)).isSome = true := by
  induction p with
  | nil => simpa using h
  | cons c p' ih =>
    rw [List.cons_append, reSearchO]
    cases hm : m (c :: (p' ++ s)) with
    | some a => simp
    | none => simpa using ih

/-- The two-word matcher fires on its own literal occurrence (single space,
second word led by a non-whitespace character). -/
theorem seqWordAt_hit (w1 : List Char) (d : Char) (w2' post : List Char)
    (hd : isSpaceC d = false) :
    seqWordAt w1 (d :: w2') (w1 ++ ' ' :: ((d :: w2') ++ post)) = some () := by
  have hsp : isSpaceC ' ' = true := rfl
  have hdrop : dropS ((d :: w2') ++ post) = (d :: w2') ++ post := by
    simp [dropS, List.dropWhile_cons, hd]
  rw [seqWordAt, litP_append]
  show spaceThen (d :: w2') (' ' :: ((d :: w2') ++ post)) = some ()
  simp only [spaceThen, hsp, if_true, hdrop, litP_append]

/-- Any text containing `w1` + one space + `w2` makes the two-word regex
search succeed. -/
theorem seqSearch_of_containsSub (w1 : List Char) (d : Char) (w2' : List Char)
    {text : List Char} (hd : isSpaceC d = false)
    (h : containsSub (w1 ++ ' ' :: (d :: w2')) text = true) :
    (reSearchO (seqWordAt w1 (d :: w2')) text).isSome = true := by
  obtain ⟨p, r, hr⟩ := containsSub_decomp h
  subst hr
  apply reSearchO_isSome_append
  apply reSearchO_isSome_head
  have := seqWordAt_hit w1 d w2' r hd
  simp only [List.append_assoc, List.cons_append] at this ⊢
  rw [this]
  rfl

/-! ## Structural lemmas about the extractor -/

/-- Inversion of a successful `replace`: the shape of the result and the
range checks that must have passed. -/
theorem replaceHM_ok_inv {d : DateTime} {h m : Nat} {b : DateTime}
    (hr : DateTime.replaceHM d h m = .ok b) :
    b = ⟨d.day, h, m, 0, 0⟩ ∧ h ≤ 23 ∧ m ≤ 59 := by
  by_cases hc : h ≤ 23 ∧ m ≤ 59
  · rw [DateTime.replaceHM, if_pos hc] at hr
    injection hr with h2
    exact ⟨h2.symm, hc.1, hc.2⟩
  · rw [DateTime.replaceHM, if_neg hc] at hr
    exact absurd hr (by simp)

/-- With no time match at all, the time phase leaves the base unchanged. -/
theorem applyTime_none {text : List Char} {base : DateTime}
    (hr : searchRanges text = none) (hs : searchSingles text = none) :
    applyTime text base = .ok (base, none, false) := by
  rw [applyTime, hr, hs]

/-- Inversion of the time phase in the range case. -/
theorem applyTime_range_inv {text : List Char} {base b : DateTime}
    {eo : Option DateTime} {tf : Bool} {h1 m1 h2 m2 : Nat} {a1 a2 : Option Bool}
    (hr : searchRanges text = some (h1, m1, a1, h2, m2, a2))
    (hap : applyTime text base = .ok (b, eo, tf)) :
    b = ⟨base.day, adjHour h1 a1, m1, 0, 0⟩ ∧
    adjHour h1 a1 ≤ 23 ∧ m1 ≤ 59 ∧ adjHour h2 a2 ≤ 23 ∧ m2 ≤ 59 ∧
    eo = some (if DateTime.ltb ⟨base.day, adjHour h2 a2, m2, 0, 0⟩ b
               then addDays ⟨base.day, adjHour h2 a2, m2, 0, 0⟩ 1
               else ⟨base.day, adjHour h2 a2, m2, 0, 0⟩) ∧ tf = true := by
  rw [applyTime, hr] at hap
  simp only [] at hap
  cases hb : DateTime.replaceHM base (adjHour h1 a1) m1 with
  | error u => rw [hb] at hap; exact absurd hap (by simp)
  | ok b0 =>
    rw [hb] at hap
    simp only [] at hap
    cases he : DateTime.replaceHM b0 (adjHour h2 a2) m2 with
    | error u => rw [he] at hap; exact absurd hap (by simp)
    | ok e0 =>
      rw [he] at hap
      obtain ⟨hb0, hA1, hm1⟩ := replaceHM_ok_inv hb
      obtain ⟨he0, hA2, hm2⟩ := replaceHM_ok_inv he
      simp only [Except.ok.injEq, Prod.mk.injEq] at hap
      obtain ⟨hbb, heo, htf⟩ := hap
      subst hbb
      refine ⟨hb0, hA1, hm1, hA2, hm2, ?_, htf.symm⟩
      rw [← heo, he0, hb0]

/-- Inversion of the time phase in the single-time case. -/
theorem applyTime_single_inv {text : List Char} {base b : DateTime}
    {eo : Option DateTime} {tf : Bool} {h m : Nat} {a : Option Bool}
    (hr : searchRanges text = none) (hs : searchSingles text = some (h, m, a))
    (hap : applyTime text base = .ok (b, eo, tf)) :
    b = ⟨base.day, adjHour h a, m, 0, 0⟩ ∧ adjHour h a ≤ 23 ∧ m ≤ 59 ∧
    eo = some (addHours1 b) ∧ tf = true := by
  rw [applyTime, hr, hs] at hap
  simp only [] at hap
  cases hb : DateTime.replaceHM base (adjHour h a) m with
  | error u => rw [hb] at hap; exact absurd hap (by simp)
  | ok b0 =>
    rw [hb] at hap
    obtain ⟨hb0, hA, hm⟩ := replaceHM_ok_inv hb
    simp only [Except.ok.injEq, Prod.mk.injEq] at hap
    obtain ⟨hbb, heo, htf⟩ := hap
    subst hbb
    exact ⟨hb0, hA, hm, heo.symm, htf.symm⟩

/-- Whenever the time phase produces an end, the end is not before the
start (source lines 142-152 and 194-197). -/
theorem applyTime_le {text : List Char} {base b e : DateTime} {tf : Bool}
    (hap : applyTime text base = .ok (b, some e, tf)) :
    DateTime.ltb e b = false := by
  cases hr : searchRanges text with
  | some g =>
    obtain ⟨h1, m1, a1, h2, m2, a2⟩ := g
    obtain ⟨hb, hA1, hm1, hA2, hm2, heo, -⟩ := applyTime_range_inv hr hap
    rw [Option.some_inj] at heo
    by_cases hlt : DateTime.ltb ⟨base.day, adjHour h2 a2, m2, 0, 0⟩ b = true
    · rw [if_pos hlt] at heo
      subst heo hb
      simp only [DateTime.ltb, addDays, DateTime.ltProp, decide_eq_false_iff_not]
      simp only [not_or, not_and, not_lt]
      omega
    · rw [if_neg hlt] at heo
      subst heo
      exact Bool.not_eq_true _ ▸ hlt
  | none =>
    cases hs : searchSingles text with
    | some g =>
      obtain ⟨h, m, a⟩ := g
      obtain ⟨hb, hA, hm, heo, -⟩ := applyTime_single_inv hr hs hap
      rw [Option.some_inj] at heo
      subst heo hb
      simp only [DateTime.ltb, addHours1, DateTime.ltProp, decide_eq_false_iff_not]
      simp only [not_or, not_and, not_lt]
      omega
    | none =>
      rw [applyTime_none hr hs] at hap
      exact absurd hap (by simp)

/-- A timed-with-end result can only come out of the time phase: inversion
of the result assembly. -/
theorem parseCore_timed_inv {env : Env} {text : List Char} {now b : DateTime}
    {eo : Option DateTime}
    (h : parseCore env text now = .ok (.timed b eo)) :
    ∃ tf, applyTime text (resolveBaseDate env text now) = .ok (b, eo, tf) := by
  rw [parseCore] at h
  simp only [] at h
  cases hap : applyTime text (resolveBaseDate env text now) with
  | error u => rw [hap] at h; exact absurd h (by simp)
  | ok trip =>
    obtain ⟨b0, e0, tf0⟩ := trip
    rw [hap] at h
    simp only [] at h
    by_cases hkw : (!tf0 && !allDaySearch text && hasDayKeyword (List.map asciiLower text)) = true
    · rw [hkw] at h
      simp at h
    · rw [Bool.not_eq_true] at hkw
      rw [hkw] at h
      simp only [Bool.or_false, if_false, Bool.false_eq_true, ite_false] at h
      by_cases hAD : allDaySearch text = true
      · rw [hAD] at h
        simp at h
      · rw [Bool.not_eq_true] at hAD
        rw [hAD] at h
        simp only [Bool.false_eq_true, if_false, Except.ok.injEq] at h
        obtain ⟨hb, he⟩ := ParseResult.timed.inj h
        subst hb he
        exact ⟨tf0, rfl⟩

/-- With the explicit all-day flag set, any normal result is the all-day
variant (lines 213-226). -/
theorem parseCore_allDay_of_flag {env : Env} {text : List Char} {now : DateTime}
    {r : ParseResult} (ha : allDaySearch text = true)
    (hp : parseCore env text now = .ok r) : ∃ d, r = .allDay d := by
  rw [parseCore] at hp
  simp only [] at hp
  cases hap : applyTime text (resolveBaseDate env text now) with
  | error u => rw [hap] at hp; exact absurd hp (by simp)
  | ok trip =>
    obtain ⟨b0, e0, tf0⟩ := trip
    rw [hap] at hp
    simp only [] at hp
    rw [ha] at hp
    simp only [Bool.true_or, if_true, Except.ok.injEq] at hp
    exact ⟨_, hp.symm⟩

/-- The who-can-fail analysis of the time phase: in-range matched clock
values make it return normally. -/
theorem applyTime_ok_of_valid (text : List Char) (base : DateTime)
    (h : matchedClockValid text = true) : exceptOk (applyTime text base) = true := by
  rw [matchedClockValid] at h
  cases hr : searchRanges text with
  | some g =>
    obtain ⟨h1, m1, a1, h2, m2, a2⟩ := g
    rw [hr] at h
    simp only [decide_eq_true_eq] at h
    rw [applyTime, hr]
    simp only []
    simp [DateTime.replaceHM, h.1, h.2.1, h.2.2.1, h.2.2.2, exceptOk]
  | none =>
    rw [hr] at h
    cases hs : searchSingles text with
    | some g =>
      obtain ⟨hh, m, a⟩ := g
      rw [hs] at h
      simp only [decide_eq_true_eq] at h
      rw [applyTime, hr, hs]
      simp only []
      simp [DateTime.replaceHM, h.1, h.2, exceptOk]
    | none =>
      rw [applyTime, hr, hs]
      rfl

/-- Normal return of the whole extractor body under in-range matched clock
values: the result assembly itself never fails. -/
theorem parseCore_isOk_of_valid (env : Env) (text : List Char) (now : DateTime)
    (h : matchedClockValid text = true) : exceptOk (parseCore env text now) = true := by
  rw [parseCore]
  simp only []
  cases hap : applyTime text (resolveBaseDate env text now) with
  | error u =>
    have hok := applyTime_ok_of_valid text (resolveBaseDate env text now) h
    rw [hap] at hok
    exact absurd hok (by simp [exceptOk])
  | ok trip =>
    obtain ⟨b0, e0, tf0⟩ := trip
    simp only []
    split
    · rfl
    · rfl

/-- The keyword-without-time inference on inputs containing `tomorrow` and
matching no time pattern: always the all-day result for the next day. -/
theorem parseCore_tomorrow_allDay {env : Env} {text : List Char} {now : DateTime}
    (ht : containsSub "tomorrow".data text = true)
    (hr : searchRanges text = none) (hs : searchSingles text = none) :
    parseCore env text now = .ok (.allDay (now.day + 1)) := by
  have hbase : resolveBaseDate env text now = addDays now 1 := by
    rw [resolveBaseDate, if_pos ht]
  have hmap : List.map asciiLower "tomorrow".data = "tomorrow".data := by rfl
  have hkwd : hasDayKeyword (List.map asciiLower text) = true := by
    have hc := containsSub_map_lower ht hmap
    simp [hasDayKeyword, dayKeywords, List.any_cons, hc]
  rw [parseCore]
  simp only []
  rw [applyTime_none hr hs]
  simp only []
  rw [hkwd, hbase]
  cases hAD : allDaySearch text with
  | false => simp [addDays]
  | true => simp [addDays]

/-- If `day after tomorrow` occurs in the text, so does its tail
`tomorrow`, hence the earlier branch of line 24 fires first. -/
theorem dayAfter_false_of_tomorrow_false {text : List Char}
    (h1 : containsSub "tomorrow".data text = false) :
    containsSub "day after tomorrow".data text = false := by
  cases hd : containsSub "day after tomorrow".data text with
  | false => rfl
  | true =>
    have hc := @containsSub_of_inner "tomorrow".data "day after tomorrow".data text hd
      "day after ".data [] rfl
    rw [hc] at h1
    exact absurd h1 (by simp)

/-! ## Lemmas about the time patterns on hour-only-start ranges

The range regexes demand minutes on both sides (patterns 1 and 3) or on
neither (patterns 2 and 4), so on the template family
"today from {a1}{a2}pm to {b}:{c}{d}pm" every matcher fails at every
position, while the first single-time regex finds the end side's H:MM pm.
The lemmas below settle each matcher at each kind of position, for
arbitrary digit characters. -/

/-- A digit character is not whitespace. -/
theorem isSpaceC_of_digit {x : Char} (hx : isDigitC x = true) : isSpaceC x = false := by
  simp [isDigitC, isSpaceC] at hx ⊢
  omega

/-- A digit character differs from every non-digit character. -/
theorem ne_of_digit {x ch : Char} (hx : isDigitC x = true) (hch : isDigitC ch = false) :
    ¬(ch = x) := by
  intro he
  rw [he, hx] at hch
  exact Bool.noConfusion hch

/-- Lower-casing leaves digit characters unchanged. -/
theorem asciiLower_digit {x : Char} (hx : isDigitC x = true) : asciiLower x = x := by
  simp [isDigitC] at hx
  rw [asciiLower, if_neg (by omega)]

/-- Stripping is the identity when both ends are non-whitespace. -/
theorem pyStrip_eq_self {x y : Char} (mid : List Char) (hx : isSpaceC x = false)
    (hy : isSpaceC y = false) : pyStrip (x :: (mid ++ [y])) = x :: (mid ++ [y]) := by
  rw [pyStrip]
  rw [List.dropWhile_cons, if_neg (by simp [hx])]
  rw [show (x :: (mid ++ [y])).reverse = y :: (mid.reverse ++ [x]) from by simp]
  rw [List.dropWhile_cons, if_neg (by simp [hy])]
  rw [show (y :: (List.reverse mid ++ [x])).reverse = x :: (mid ++ [y]) from by simp]

/-- Pattern matchers on the empty rest of the text. -/
theorem rp1At_nil : rp1At [] = none := rfl

/-- Pattern matcher 2 on the empty rest of the text. -/
theorem rp2At_nil : rp2At [] = none := rfl

/-- Pattern matcher 3 on the empty rest of the text. -/
theorem rp3At_nil : rp3At [] = none := rfl

/-- Pattern matcher 4 on the empty rest of the text. -/
theorem rp4At_nil : rp4At [] = none := rfl

/-- Single-time matcher 1 on the empty rest of the text. -/
theorem sp1At_nil : sp1At [] = none := rfl

/-- Range pattern 1 needs a leading digit. -/
theorem rp1At_nondigit {x : Char} {r : List Char} (hx : isDigitC x = false) :
    rp1At (x :: r) = none := by
  cases r with
  | nil => simp [rp1At, d12P, hx]
  | cons y t => simp [rp1At, d12P, hx]

/-- Range pattern 2 needs a leading digit. -/
theorem rp2At_nondigit {x : Char} {r : List Char} (hx : isDigitC x = false) :
    rp2At (x :: r) = none := by
  cases r with
  | nil => simp [rp2At, d12P, hx]
  | cons y t => simp [rp2At, d12P, hx]

/-- Single-time pattern 1 needs a leading digit. -/
theorem sp1At_nondigit {x : Char} {r : List Char} (hx : isDigitC x = false) :
    sp1At (x :: r) = none := by
  cases r with
  | nil => simp [sp1At, d12P, hx]
  | cons y t => simp [sp1At, d12P, hx]

/-- Range pattern 3 needs a leading `f`. -/
theorem rp3At_nonf {x : Char} {r : List Char} (hx : ¬('f' = x)) : rp3At (x :: r) = none := by
  simp [rp3At, litP, hx]

/-- Range pattern 4 needs a leading `f`. -/
theorem rp4At_nonf {x : Char} {r : List Char} (hx : ¬('f' = x)) : rp4At (x :: r) = none := by
  simp [rp4At, litP, hx]

/-- Range pattern 1 fails on a two-digit hour with no minutes (the colon
it demands after the start hour is missing: minutes are required on the
start side). -/
theorem rp1At_dd {x1 x2 : Char} {r : List Char} (h1 : isDigitC x1 = true)
    (h2 : isDigitC x2 = true) : rp1At (x1 :: x2 :: 'p' :: r) = none := by
  simp +decide [rp1At, d12P, colonP, h1, h2]

/-- Range pattern 1 fails on a one-digit hour with no minutes. -/
theorem rp1At_d_p {x : Char} {r : List Char} (h1 : isDigitC x = true) :
    rp1At (x :: 'p' :: r) = none := by
  simp +decide [rp1At, d12P, colonP, h1]

/-- Range pattern 1 fails when started at the minutes-bearing end side of
the template (no connector follows). -/
theorem rp1At_b {x y1 y2 : Char} (h1 : isDigitC x = true) (h2 : isDigitC y1 = true)
    (h3 : isDigitC y2 = true) :
    rp1At (x :: ':' :: y1 :: y2 :: 'p' :: 'm' :: []) = none := by
  simp +decide [rp1At, d12P, colonP, d2P, ampmP, ampmOpt, connP, dropS, h1, h2, h3]

/-- Range pattern 2 fails across a two-digit hour-only start side against
a minutes-bearing end side (the meridiem it demands right after the end
hour is a colon: no minutes are allowed on either side). -/
theorem rp2At_a1 {x1 x2 y : Char} {r : List Char} (h1 : isDigitC x1 = true)
    (h2 : isDigitC x2 = true) (hy : isDigitC y = true) :
    rp2At (x1 :: x2 :: 'p' :: 'm' :: ' ' :: 't' :: 'o' :: ' ' :: y :: ':' :: r) = none := by
  have hs := isSpaceC_of_digit hy
  simp +decide [rp2At, d12P, dropS, ampmP, connP, h1, h2, hy, hs]

/-- Range pattern 2 fails across a one-digit hour-only start side against
a minutes-bearing end side. -/
theorem rp2At_a2 {x y : Char} {r : List Char} (h1 : isDigitC x = true)
    (hy : isDigitC y = true) :
    rp2At (x :: 'p' :: 'm' :: ' ' :: 't' :: 'o' :: ' ' :: y :: ':' :: r) = none := by
  have hs := isSpaceC_of_digit hy
  simp +decide [rp2At, d12P, dropS, ampmP, connP, h1, hy, hs]

/-- Range pattern 2 fails when started at a digit followed by a colon. -/
theorem rp2At_b {x : Char} {r : List Char} (h1 : isDigitC x = true) :
    rp2At (x :: ':' :: r) = none := by
  simp +decide [rp2At, d12P, dropS, ampmP, h1]

/-- Range pattern 2 fails on a trailing two-digit `pm` time (no connector
follows). -/
theorem rp2At_c {x1 x2 : Char} (h1 : isDigitC x1 = true) (h2 : isDigitC x2 = true) :
    rp2At (x1 :: x2 :: 'p' :: 'm' :: []) = none := by
  simp +decide [rp2At, d12P, dropS, ampmP, connP, h1, h2]

/-- Range pattern 2 fails on a trailing one-digit `pm` time. -/
theorem rp2At_d {x : Char} (h1 : isDigitC x = true) :
    rp2At (x :: 'p' :: 'm' :: []) = none := by
  simp +decide [rp2At, d12P, dropS, ampmP, connP, h1]

/-- Range pattern 3 fails at the `from` of the template: its body is
pattern 1 on the hour-only start side. -/
theorem rp3At_f {x1 x2 : Char} {r : List Char} (h1 : isDigitC x1 = true)
    (h2 : isDigitC x2 = true) :
    rp3At ('f' :: 'r' :: 'o' :: 'm' :: ' ' :: x1 :: x2 :: 'p' :: r) = none := by
  have hs := isSpaceC_of_digit h1
  have hdrop : dropS (' ' :: x1 :: x2 :: 'p' :: r) = x1 :: x2 :: 'p' :: r := by
    simp +decide [dropS, List.dropWhile_cons, hs]
  show rp1At (dropS (' ' :: x1 :: x2 :: 'p' :: r)) = none
  rw [hdrop]
  exact rp1At_dd h1 h2

/-- Range pattern 4 fails at the `from` of the template: its body is
pattern 2 on the hour-only start side. -/
theorem rp4At_f {x1 x2 y : Char} {r : List Char} (h1 : isDigitC x1 = true)
    (h2 : isDigitC x2 = true) (hy : isDigitC y = true) :
    rp4At ('f' :: 'r' :: 'o' :: 'm' :: ' ' :: x1 :: x2 :: 'p' :: 'm' :: ' ' :: 't' :: 'o' ::
      ' ' :: y :: ':' :: r) = none := by
  have hs := isSpaceC_of_digit h1
  have hdrop : dropS (' ' :: x1 :: x2 :: 'p' :: 'm' :: ' ' :: 't' :: 'o' :: ' ' :: y :: ':' :: r) =
      x1 :: x2 :: 'p' :: 'm' :: ' ' :: 't' :: 'o' :: ' ' :: y :: ':' :: r := by
    simp +decide [dropS, List.dropWhile_cons, hs]
  show rp2At (dropS (' ' :: x1 :: x2 :: 'p' :: 'm' :: ' ' :: 't' :: 'o' :: ' ' :: y :: ':' :: r)) = none
  rw [hdrop]
  exact rp2At_a1 h1 h2 hy

/-- Single-time pattern 1 fails on a two-digit hour with no minutes. -/
theorem sp1At_dd {x1 x2 : Char} {r : List Char} (h1 : isDigitC x1 = true)
    (h2 : isDigitC x2 = true) : sp1At (x1 :: x2 :: 'p' :: r) = none := by
  simp +decide [sp1At, d12P, colonP, h1, h2]

/-- Single-time pattern 1 fails on a one-digit hour with no minutes. -/
theorem sp1At_d_p {x : Char} {r : List Char} (h1 : isDigitC x = true) :
    sp1At (x :: 'p' :: r) = none := by
  simp +decide [sp1At, d12P, colonP, h1]

/-- Single-time pattern 1 succeeds on the end side's H:MM pm. -/
theorem sp1At_found {x y1 y2 : Char} {r : List Char} (h1 : isDigitC x = true)
    (h2 : isDigitC y1 = true) (h3 : isDigitC y2 = true) :
    sp1At (x :: ':' :: y1 :: y2 :: 'p' :: 'm' :: r) =
      some (dv x, 10 * dv y1 + dv y2, some true) := by
  simp +decide [sp1At, d12P, colonP, d2P, dropS, ampmP, h1, h2, h3]

/-! ## Claim theorems -/

/-- Claim C1 (counterexample): on the input "Add a team lunch next Tuesday
from 12pm to 1:30pm" with the reference instant Monday 2024-01-01 (day 0),
the extractor does not return the claimed start 2024-01-09T12:00 (day 8)
with end 13:30. -/
theorem c1_counterexample :
    ¬ parse_natural_language_datetime env0
        "Add a team lunch next Tuesday from 12pm to 1:30pm".data now0 =
      .ok (.timed ⟨8, 12, 0, 0, 0⟩ (some ⟨8, 13, 30, 0, 0⟩)) := by
  intro h
  have h0 : parse_natural_language_datetime env0
      "Add a team lunch next Tuesday from 12pm to 1:30pm".data now0 =
      .ok (.timed ⟨1, 13, 30, 0, 0⟩ (some ⟨1, 14, 30, 0, 0⟩)) := rfl
  rw [h0] at h
  simp only [Except.ok.injEq] at h
  obtain ⟨hb, -⟩ := ParseResult.timed.inj h
  have hday : (1 : Int) = 8 := congrArg DateTime.day hb
  norm_num at hday

/-- Claim C1 (amended): on "Add a team lunch next Tuesday from 12pm to
1:30pm" with the reference instant Monday 2024-01-01 (day 0), the
extractor returns start 2024-01-02T13:30:00 (day 1) and end
2024-01-02T14:30:00: the weekday offset `(8 - 0) mod 7` is 1 day, not 8,
and no range pattern matches a minutes-free start side, so the
single-time phase picks up the end side's "1:30pm" with a one-hour
default end. -/
theorem c1_theorem :
    parse_natural_language_datetime env0
      "Add a team lunch next Tuesday from 12pm to 1:30pm".data now0 =
    .ok (.timed ⟨1, 13, 30, 0, 0⟩ (some ⟨1, 14, 30, 0, 0⟩)) := rfl

/-- Claim C2 (code bug): for every input containing "day after tomorrow"
the day resolver returns the reference instant plus one day — the
`'tomorrow' in text` branch of line 24 matches the substring first, so
the `now + 2 days` branch of line 28 is unreachable, contradicting the
resolution order the spec states. -/
theorem c2_theorem (env : Env) (input : List Char) (now : DateTime)
    (h : containsSub "day after tomorrow".data (prep input) = true) :
    resolveBaseDate env (prep input) now = addDays now 1 := by
  have ht : containsSub "tomorrow".data (prep input) = true :=
    @containsSub_of_inner "tomorrow".data "day after tomorrow".data (prep input) h
      "day after ".data [] rfl
  rw [resolveBaseDate, if_pos ht]

/-- Claim C2 witness: concrete instance of the shadowed branch. -/
theorem c2_witness :
    containsSub "day after tomorrow".data (prep "day after tomorrow".data) = true ∧
    resolveBaseDate env0 (prep "day after tomorrow".data) now0 = addDays now0 1 :=
  ⟨rfl, c2_theorem env0 "day after tomorrow".data now0 rfl⟩

/-- Claim C3 (counterexample): the extractor can raise — on "today at
25:00" the single-time pattern `at\s*(\d{1,2}):(\d{2})` matches hour 25
and the `replace` call fails, so an exception propagates to the caller. -/
theorem c3_counterexample :
    parse_natural_language_datetime env0 "today at 25:00".data now0 = .error () := rfl

/-- Claim C3 (amended): the extractor returns normally whenever the
matched time digits encode in-range clock values after meridiem
adjustment (hour at most 23, minute at most 59); in particular the fuzzy
fallback never raises to the caller, but matched out-of-range digits do. -/
theorem c3_theorem (env : Env) (input : List Char) (now : DateTime)
    (h : matchedClockValid (prep input) = true) :
    exceptOk (parse_natural_language_datetime env input now) = true :=
  parseCore_isOk_of_valid env (prep input) now h

/-- Claim C3 witness: a concrete in-range input returns normally. -/
theorem c3_witness :
    matchedClockValid (prep "lunch tomorrow at 3pm".data) = true ∧
    exceptOk (parse_natural_language_datetime env0 "lunch tomorrow at 3pm".data now0) = true :=
  ⟨rfl, c3_theorem env0 "lunch tomorrow at 3pm".data now0 rfl⟩

/-- Claim C4 (counterexample): on "today 3pm to 3pm" the extractor returns
a timed result whose end equals the start, so the end is not strictly
after the start. -/
theorem c4_counterexample :
    parse_natural_language_datetime env0 "today 3pm to 3pm".data now0 =
      .ok (.timed ⟨0, 15, 0, 0, 0⟩ (some ⟨0, 15, 0, 0, 0⟩)) ∧
    ¬ DateTime.ltProp ⟨0, 15, 0, 0, 0⟩ ⟨0, 15, 0, 0, 0⟩ :=
  ⟨rfl, by decide⟩

/-- Claim C4 (amended): whenever the extractor returns a timed result with
an end instant, the end is never before the start ("strictly after"
weakens to "at or after": equality occurs exactly when the matched end
clock equals the start clock, since only a strictly earlier end is
wrapped to the next day). -/
theorem c4_theorem (env : Env) (input : List Char) (now : DateTime) (b e : DateTime)
    (h : parse_natural_language_datetime env input now = .ok (.timed b (some e))) :
    DateTime.ltb e b = false := by
  obtain ⟨tf, hap⟩ := parseCore_timed_inv h
  exact applyTime_le hap

/-- Claim C4 witness: concrete timed result with its end not before its
start. -/
theorem c4_witness : DateTime.ltb ⟨0, 16, 0, 0, 0⟩ ⟨0, 15, 0, 0, 0⟩ = false :=
  c4_theorem env0 "today 3pm to 4pm".data now0 ⟨0, 15, 0, 0, 0⟩ ⟨0, 16, 0, 0, 0⟩ rfl

/-- Claim C5 (confirmed): whenever the matched time range has its
(meridiem-adjusted) end clock strictly before its start clock and the
extractor returns a timed start/end pair, the end lies exactly one day
after the start's date, at the parsed end clock time. -/
theorem c5_theorem (env : Env) (input : List Char) (now : DateTime)
    (h1 m1 h2 m2 : Nat) (a1 a2 : Option Bool) (b e : DateTime)
    (hsr : searchRanges (prep input) = some (h1, m1, a1, h2, m2, a2))
    (hclock : adjHour h2 a2 < adjHour h1 a1 ∨ (adjHour h2 a2 = adjHour h1 a1 ∧ m2 < m1))
    (hp : parse_natural_language_datetime env input now = .ok (.timed b (some e))) :
    e = ⟨b.day + 1, adjHour h2 a2, m2, 0, 0⟩ := by
  obtain ⟨tf, hap⟩ := parseCore_timed_inv hp
  obtain ⟨hb, hA1, hm1b, hA2, hm2b, heo, -⟩ := applyTime_range_inv hsr hap
  rw [Option.some_inj] at heo
  have hlt : DateTime.ltb
      ⟨(resolveBaseDate env (prep input) now).day, adjHour h2 a2, m2, 0, 0⟩ b = true := by
    rw [hb]
    simp only [DateTime.ltb, DateTime.ltProp, decide_eq_true_eq]
    right
    refine ⟨by trivial, ?_⟩
    rcases hclock with hc | ⟨hEq, hm⟩
    · exact Or.inl hc
    · exact Or.inr ⟨hEq, Or.inl hm⟩
  rw [if_pos hlt] at heo
  rw [heo, hb]
  simp [addDays]

/-- Claim C5 witness: "today 10pm to 1am" ends at 01:00 the next day. -/
theorem c5_witness :
    searchRanges (prep "today 10pm to 1am".data) = some (10, 0, some true, 1, 0, some false) ∧
    (⟨1, 1, 0, 0, 0⟩ : DateTime) =
      ⟨(⟨0, 22, 0, 0, 0⟩ : DateTime).day + 1, adjHour 1 (some false), 0, 0, 0⟩ :=
  ⟨rfl, c5_theorem env0 "today 10pm to 1am".data now0 10 0 1 0 (some true) (some false)
    ⟨0, 22, 0, 0, 0⟩ ⟨1, 1, 0, 0, 0⟩ rfl (by decide) rfl⟩

/-- Claim C6 (counterexample): "today next monday" contains "next monday"
and the reference instant day 0 is a Monday, yet the resolved date is not
7 days ahead — the earlier `today` branch wins. -/
theorem c6_counterexample :
    containsSub "next monday".data (prep "today next monday".data) = true ∧
    pyWeekday now0 = 0 ∧
    ¬ resolveBaseDate env0 (prep "today next monday".data) now0 = addDays now0 7 := by
  refine ⟨rfl, rfl, ?_⟩
  intro h
  have h0 : resolveBaseDate env0 (prep "today next monday".data) now0 = now0 := rfl
  rw [h0] at h
  have hday : (0 : Int) = 0 + 7 := congrArg DateTime.day h
  norm_num at hday

/-- Claim C6 (amended): for every input containing "next monday" but
containing neither "tomorrow" nor "today" (the day phrases the source
checks first), when the reference instant is a Monday the resolved date
is exactly 7 days ahead, never the same day. -/
theorem c6_theorem (env : Env) (input : List Char) (now : DateTime)
    (h1 : containsSub "tomorrow".data (prep input) = false)
    (h2 : containsSub "today".data (prep input) = false)
    (h3 : containsSub "next monday".data (prep input) = true)
    (h4 : pyWeekday now = 0) :
    resolveBaseDate env (prep input) now = addDays now 7 := by
  have hmon : nextWdSearch "monday".data (prep input) = true := by
    rw [nextWdSearch]
    exact seqSearch_of_containsSub "next".data 'm' "onday".data rfl h3
  rw [resolveBaseDate, if_neg (by simp [h1]), if_neg (by simp [h2]),
    if_neg (by simp [dayAfter_false_of_tomorrow_false h1]), if_pos hmon, nextWeekdayDate]
  norm_num [h4]

/-- Claim C6 witness: "next monday" on a Monday resolves 7 days out. -/
theorem c6_witness :
    containsSub "next monday".data (prep "next monday".data) = true ∧
    pyWeekday now0 = 0 ∧
    resolveBaseDate env0 (prep "next monday".data) now0 = addDays now0 7 :=
  ⟨rfl, rfl, c6_theorem env0 "next monday".data now0 rfl rfl rfl rfl⟩

/-- Claim C7 (confirmed): for every input containing "tomorrow" on which
neither the range patterns nor the single-time patterns match, the
result is the all-day event on the day after the reference instant. -/
theorem c7_theorem (env : Env) (input : List Char) (now : DateTime)
    (ht : containsSub "tomorrow".data (prep input) = true)
    (hr : searchRanges (prep input) = none)
    (hs : searchSingles (prep input) = none) :
    parse_natural_language_datetime env input now = .ok (.allDay (now.day + 1)) :=
  parseCore_tomorrow_allDay ht hr hs

/-- Claim C7 witness: "lunch tomorrow" is all-day on day 1. -/
theorem c7_witness :
    containsSub "tomorrow".data (prep "lunch tomorrow".data) = true ∧
    parse_natural_language_datetime env0 "lunch tomorrow".data now0 =
      .ok (.allDay (now0.day + 1)) :=
  ⟨rfl, c7_theorem env0 "lunch tomorrow".data now0 rfl rfl rfl⟩

/-- Claim C8 (confirmed): for every input matching the explicit all-day
marker regex, any normal result is the all-day variant, carrying a date
only — regardless of any time or range found later. -/
theorem c8_theorem (env : Env) (input : List Char) (now : DateTime) (r : ParseResult)
    (ha : allDaySearch (prep input) = true)
    (hp : parse_natural_language_datetime env input now = .ok r) :
    ∃ d, r = ParseResult.allDay d :=
  parseCore_allDay_of_flag ha hp

/-- Claim C8 witness: "all day meeting at 3pm" is all-day despite the
time. -/
theorem c8_witness : ∃ d, ParseResult.allDay 0 = ParseResult.allDay d :=
  c8_theorem env0 "all day meeting at 3pm".data now0 (ParseResult.allDay 0) rfl rfl

/-- Claim C9 (confirmed): for every input containing "this weekend" with
no earlier-matching day phrase, the resolved date is the reference
instant plus `(5 - weekday) mod 7` days, with no zero-day correction. -/
theorem c9_theorem (env : Env) (input : List Char) (now : DateTime)
    (h1 : containsSub "tomorrow".data (prep input) = false)
    (h2 : containsSub "today".data (prep input) = false)
    (hm1 : nextWdSearch "monday".data (prep input) = false)
    (hm2 : nextWdSearch "tuesday".data (prep input) = false)
    (hm3 : nextWdSearch "wednesday".data (prep input) = false)
    (hm4 : nextWdSearch "thursday".data (prep input) = false)
    (hm5 : nextWdSearch "friday".data (prep input) = false)
    (hm6 : nextWdSearch "saturday".data (prep input) = false)
    (hm7 : nextWdSearch "sunday".data (prep input) = false)
    (hw : containsSub "this weekend".data (prep input) = true) :
    resolveBaseDate env (prep input) now = addDays now ((5 - pyWeekday now) % 7) := by
  have hwk : thisWeekendSearch (prep input) = true := by
    rw [thisWeekendSearch]
    exact seqSearch_of_containsSub "this".data 'w' "eekend".data rfl hw
  rw [resolveBaseDate, if_neg (by simp [h1]), if_neg (by simp [h2]),
    if_neg (by simp [dayAfter_false_of_tomorrow_false h1]),
    if_neg (by simp [hm1]), if_neg (by simp [hm2]), if_neg (by simp [hm3]),
    if_neg (by simp [hm4]), if_neg (by simp [hm5]), if_neg (by simp [hm6]),
    if_neg (by simp [hm7]), if_pos hwk]

/-- Claim C9 witness: on a Saturday (day 5), "this weekend" resolves to
that same day (offset 0). -/
theorem c9_witness :
    containsSub "this weekend".data (prep "this weekend".data) = true ∧
    pyWeekday (⟨5, 0, 0, 0, 0⟩ : DateTime) = 5 ∧
    resolveBaseDate env0 (prep "this weekend".data) ⟨5, 0, 0, 0, 0⟩ =
      addDays ⟨5, 0, 0, 0, 0⟩ ((5 - pyWeekday ⟨5, 0, 0, 0, 0⟩) % 7) :=
  ⟨rfl, rfl, c9_theorem env0 "this weekend".data ⟨5, 0, 0, 0, 0⟩
    rfl rfl rfl rfl rfl rfl rfl rfl rfl rfl⟩

/-- Claim C10 (confirmed): for every input whose only time expression is a
range with an hour-only start side and a minutes-bearing end side, none of
the four time-range patterns matches and the single-time phase matches the
end side's H:MM am/pm, so the returned start carries that end clock time
and the returned end is exactly one hour after it.  Part one quantifies
over the digits of the template family "today from {a1}{a2}pm to
{b}:{c}{d}pm" (preserved by the lower/strip preprocessing): no range
pattern matches — each requires minutes on both sides or on neither — and
the single-time phase returns the end side's clock.  Part two covers every
input on which the range phase fails and the single-time phase matches an
am/pm-bearing clock: any timed result starts at that (meridiem-adjusted)
clock on the resolved day and ends exactly one hour later. -/
theorem c10_theorem :
    (∀ a1 a2 b c d : Char, isDigitC a1 = true → isDigitC a2 = true → isDigitC b = true →
      isDigitC c = true → isDigitC d = true →
      prep (c10Template a1 a2 b c d) = c10Template a1 a2 b c d ∧
      searchRanges (c10Template a1 a2 b c d) = none ∧
      searchSingles (c10Template a1 a2 b c d) = some (dv b, 10 * dv c + dv d, some true)) ∧
    (∀ (env : Env) (input : List Char) (now : DateTime) (h m : Nat) (ap : Bool)
      (b : DateTime) (eo : Option DateTime),
      searchRanges (prep input) = none →
      searchSingles (prep input) = some (h, m, some ap) →
      parse_natural_language_datetime env input now = .ok (.timed b eo) →
      b = ⟨(resolveBaseDate env (prep input) now).day, adjHour h (some ap), m, 0, 0⟩ ∧
      eo = some (addHours1 b)) := by
  constructor
  · intro a1 a2 b c d h1 h2 h3 h4 h5
    have g1 : isDigitC 't' = false := by decide
    have g2 : isDigitC 'o' = false := by decide
    have g3 : isDigitC 'd' = false := by decide
    have g4 : isDigitC 'a' = false := by decide
    have g5 : isDigitC 'y' = false := by decide
    have g6 : isDigitC ' ' = false := by decide
    have g7 : isDigitC 'f' = false := by decide
    have g8 : isDigitC 'r' = false := by decide
    have g9 : isDigitC 'm' = false := by decide
    have g10 : isDigitC 'p' = false := by decide
    have g11 : isDigitC ':' = false := by decide
    have n1 : ¬('f' = 't') := by decide
    have n2 : ¬('f' = 'o') := by decide
    have n3 : ¬('f' = 'd') := by decide
    have n4 : ¬('f' = 'a') := by decide
    have n5 : ¬('f' = 'y') := by decide
    have n6 : ¬('f' = ' ') := by decide
    have n7 : ¬('f' = 'r') := by decide
    have n8 : ¬('f' = 'm') := by decide
    have n9 : ¬('f' = 'p') := by decide
    have n10 : ¬('f' = ':') := by decide
    have f1 := ne_of_digit h1 g7
    have f2 := ne_of_digit h2 g7
    have f3 := ne_of_digit h3 g7
    have f4 := ne_of_digit h4 g7
    have f5 := ne_of_digit h5 g7
    have hprep : prep (c10Template a1 a2 b c d) = c10Template a1 a2 b c d := by
      have l1 : asciiLower 't' = 't' := by decide
      have l2 : asciiLower 'o' = 'o' := by decide
      have l3 : asciiLower 'd' = 'd' := by decide
      have l4 : asciiLower 'a' = 'a' := by decide
      have l5 : asciiLower 'y' = 'y' := by decide
      have l6 : asciiLower ' ' = ' ' := by decide
      have l7 : asciiLower 'f' = 'f' := by decide
      have l8 : asciiLower 'r' = 'r' := by decide
      have l9 : asciiLower 'm' = 'm' := by decide
      have l10 : asciiLower 'p' = 'p' := by decide
      have l11 : asciiLower ':' = ':' := by decide
      have hmap : List.map asciiLower (c10Template a1 a2 b c d) = c10Template a1 a2 b c d := by
        simp [c10Template, asciiLower_digit, h1, h2, h3, h4, h5,
          l1, l2, l3, l4, l5, l6, l7, l8, l9, l10, l11]
      have hshape : c10Template a1 a2 b c d =
          't' :: (('o' :: 'd' :: 'a' :: 'y' :: ' ' :: 'f' :: 'r' :: 'o' :: 'm' :: ' ' ::
            a1 :: a2 :: 'p' :: 'm' :: ' ' :: 't' :: 'o' :: ' ' :: b :: ':' :: c :: d :: 'p' ::
            []) ++ ['m']) := rfl
      rw [prep, hmap, hshape]
      exact pyStrip_eq_self _ (by decide) (by decide)
    have hr1 : reSearchO rp1At (c10Template a1 a2 b c d) = none := by
      simp +decide [c10Template, reSearchO, rp1At_nil, rp1At_nondigit, rp1At_dd, rp1At_d_p,
        rp1At_b, h1, h2, h3, h4, h5, g1, g2, g3, g4, g5, g6, g7, g8, g9, g10, g11]
    have hr2 : reSearchO rp2At (c10Template a1 a2 b c d) = none := by
      simp +decide [c10Template, reSearchO, rp2At_nil, rp2At_nondigit, rp2At_a1, rp2At_a2,
        rp2At_b, rp2At_c, rp2At_d, h1, h2, h3, h4, h5, g1, g2, g3, g4, g5, g6, g7, g8, g9,
        g10, g11]
    have hr3 : reSearchO rp3At (c10Template a1 a2 b c d) = none := by
      simp +decide [c10Template, reSearchO, rp3At_nil, rp3At_nonf, rp3At_f,
        h1, h2, h3, h4, h5, f1, f2, f3, f4, f5, n1, n2, n3, n4, n5, n6, n7, n8, n9, n10]
    have hr4 : reSearchO rp4At (c10Template a1 a2 b c d) = none := by
      simp +decide [c10Template, reSearchO, rp4At_nil, rp4At_nonf, rp4At_f,
        h1, h2, h3, h4, h5, f1, f2, f3, f4, f5, n1, n2, n3, n4, n5, n6, n7, n8, n9, n10]
    have hs1 : reSearchO sp1At (c10Template a1 a2 b c d) =
        some (dv b, 10 * dv c + dv d, some true) := by
      simp +decide [c10Template, reSearchO, sp1At_nil, sp1At_nondigit, sp1At_dd, sp1At_d_p,
        sp1At_found, h1, h2, h3, h4, h5, g1, g2, g3, g4, g5, g6, g7, g8, g9, g10, g11]
    refine ⟨hprep, ?_, ?_⟩
    · simp only [searchRanges, hr1, hr2, hr3, hr4]
    · simp only [searchSingles, hs1]
  · intro env input now h m ap b eo hr hs hp
    obtain ⟨tf, hap⟩ := parseCore_timed_inv hp
    obtain ⟨hb, hA, hmle, heo, -⟩ := applyTime_single_inv hr hs hap
    exact ⟨hb, heo⟩

/-- Claim C10 witness: the template instance "today from 12pm to 1:30pm"
(digits 1, 2, 1, 3, 0) exercises both parts: no range pattern matches, the
single-time phase returns (1, 30, pm), and the returned start 13:30 with
end 14:30 instantiate the one-hour-default conclusion. -/
theorem c10_witness :
    (prep (c10Template '1' '2' '1' '3' '0') = c10Template '1' '2' '1' '3' '0' ∧
     searchRanges (c10Template '1' '2' '1' '3' '0') = none ∧
     searchSingles (c10Template '1' '2' '1' '3' '0') =
       some (dv '1', 10 * dv '3' + dv '0', some true)) ∧
    ((⟨0, 13, 30, 0, 0⟩ : DateTime) =
       ⟨(resolveBaseDate env0 (prep "today from 12pm to 1:30pm".data) now0).day,
        adjHour 1 (some true), 30, 0, 0⟩ ∧
     (some (⟨0, 14, 30, 0, 0⟩ : DateTime) : Option DateTime) =
       some (addHours1 (⟨0, 13, 30, 0, 0⟩ : DateTime))) :=
  ⟨c10_theorem.1 '1' '2' '1' '3' '0' rfl rfl rfl rfl rfl,
   c10_theorem.2 env0 "today from 12pm to 1:30pm".data now0 1 30 true
     ⟨0, 13, 30, 0, 0⟩ (some ⟨0, 14, 30, 0, 0⟩) rfl rfl rfl⟩
